import Mathlib

/-!
Verification development for the phi4mm decode-time core
(`mlx_vlm/models/phi4mm/phi4mm.py`).

The Python source is shallowly embedded over exact rational arithmetic.
Components that live outside the embedded file (the fused attention kernel,
the rotary-embedding modules, RMSNorm, SiLU, the regex matcher, the LoRA
wrapper, the multimodal fusion module and the InputMode enum) are external
collaborators; they are modelled from the specification as abstract
parameters or as small definitions whose doc comments say so.
-/

/-! ## Rational vectors and matrices -/

/-- A vector of dimension `d` with rational entries (exact stand-in for the
float tensors of the source). -/
abbrev QVec (d : ℕ) := Fin d → ℚ

/-- An `m × n` matrix of rationals. -/
abbrev QMat (m n : ℕ) := Fin m → Fin n → ℚ

/-- Dot product of two vectors. -/
def qdot {d : ℕ} (a b : QVec d) : ℚ := ∑ i, a i * b i

/-- Matrix-vector application: the embedding of a bias-free `nn.Linear`. -/
def matApply {m n : ℕ} (M : QMat m n) (x : QVec n) : QVec m :=
  fun i => qdot (M i) x

/-- Pointwise vector addition (residual streams). -/
def vadd {d : ℕ} (a b : QVec d) : QVec d := fun i => a i + b i

/-- Scalar multiple of a vector. -/
def vsmul {d : ℕ} (c : ℚ) (a : QVec d) : QVec d := fun i => c * a i

/-- The zero vector. -/
def vzero {d : ℕ} : QVec d := fun _ => 0

/-! ## Configuration data (`ModelConfig`, lines 19-56)

`rope_scaling` is a Python dict with string keys; it is embedded as an
association list of string/value pairs so that emptiness (Python falsiness)
and missing keys are represented faithfully. -/

/-- A value stored in the `rope_scaling` dict: a number, a factor list, or a
string (the `type` tag). -/
inductive RSVal
  | num (q : ℚ)
  | list (l : List ℚ)
  | str (s : String)
deriving DecidableEq

/-- The `rope_scaling` dict, embedded as an association list. -/
abbrev RopeDict := List (String × RSVal)

/-- Dict lookup (`d[k]` successful case / `k in d` test support). -/
def rdGet (d : RopeDict) (k : String) : Option RSVal :=
  (d.find? (fun p => p.1 == k)).map (fun p => p.2)

/-- Key membership test, `k in d`. -/
def rdHas (d : RopeDict) (k : String) : Bool := (rdGet d k).isSome

/-- The per-modality LoRA descriptor (`vision_lora` / `speech_lora` dicts).
The regex pattern is embedded as its induced match predicate on
fully-qualified module names (`re.match` is an external collaborator). -/
structure LoraCfg where
  r : ℕ
  lora_alpha : ℚ
  dp : ℚ
  layer : String → Bool

/-- The fields of `ModelConfig` that the verified claims depend on
(remaining numeric fields of the dataclass do not influence any embedded
control flow and are omitted). -/
structure ModelConfig where
  model_type : String
  hidden_size : ℕ
  num_hidden_layers : ℕ
  intermediate_size : ℕ
  num_attention_heads : ℕ
  rms_norm_eps : ℚ
  vocab_size : ℕ
  num_key_value_heads : Option ℕ
  rope_theta : ℚ
  rope_traditional : Bool
  rope_scaling : Option RopeDict
  tie_word_embeddings : Bool
  embd_layer : Option (List (String × String))
  vision_lora : Option LoraCfg
  speech_lora : Option LoraCfg

/-- The `num_key_value_heads` defaulting step of `__post_init__`
(lines 44-45). -/
def resolveKV (c : ModelConfig) : ModelConfig :=
  {c with num_key_value_heads := some (c.num_key_value_heads.getD c.num_attention_heads)}

/-- Whether the `type` value is one of the recognized scaling types
(line 52). -/
def recognizedType (v : Option RSVal) : Prop :=
  v = some (RSVal.str "longrope") ∨ v = some (RSVal.str "su") ∨
    v = some (RSVal.str "linear")

instance (v : Option RSVal) : Decidable (recognizedType v) := by
  unfold recognizedType; infer_instance

/-- `ModelConfig.__post_init__` (lines 43-56).  The boolean component of a
successful result records whether the unsupported-type warning was printed;
in that case `rope_scaling` is reset to `None` (line 56).  An empty dict is
falsy in Python, so it skips validation entirely. -/
def ModelConfig.postInitChecked (c : ModelConfig) :
    Except String (ModelConfig × Bool) :=
  let c1 := resolveKV c
  match c.rope_scaling with
  | none => .ok (c1, false)
  | some d =>
    if d.isEmpty then .ok (c1, false)
    else if rdHas d "long_factor" && rdHas d "type" then
      if recognizedType (rdGet d "type") then .ok (c1, false)
      else .ok ({c1 with rope_scaling := none}, true)
    else .error "rope_scaling must contain keys long_factor and type"

/-! ## Rotary-variant selection in `Attention.__init__` (lines 76-96) -/

/-- Which rotary module the attention block constructs: either the
piecewise long-context `SuScaledRotaryEmbedding` with its two factor
tables, or the plain `nn.RoPE` with an explicit scale. -/
inductive RopeVariant
  | suScaled (short_factor long_factor : RSVal)
  | plain (traditional : Bool) (base scale : ℚ)
deriving DecidableEq

/-- The linear-scaling factor computation of the `else` branch
(lines 87-90): `1 / factor` after asserting the value is a float. -/
def linearScale (d : RopeDict) : Except String ℚ :=
  match rdGet d "factor" with
  | none => .error "KeyError factor"
  | some (RSVal.num f) => .ok (1 / f)
  | some _ => .error "AssertionError factor must be a float"

/-- The rotary-module selection of `Attention.__init__` (lines 76-96),
with Python dict subscripts on missing keys embedded as `KeyError`
failures.  The truthiness test on `config.rope_scaling` short-circuits, so
an empty dict falls to the plain branch with scale 1. -/
def attnRope (c : ModelConfig) : Except String RopeVariant :=
  match c.rope_scaling with
  | none => .ok (.plain c.rope_traditional c.rope_theta 1)
  | some d =>
    if d.isEmpty then .ok (.plain c.rope_traditional c.rope_theta 1)
    else
      match rdGet d "type" with
      | none => .error "KeyError type"
      | some t =>
        if t = RSVal.str "longrope" ∨ t = RSVal.str "su" then
          match rdGet d "short_factor" with
          | none => .error "KeyError short_factor"
          | some sf =>
            match rdGet d "long_factor" with
            | none => .error "KeyError long_factor"
            | some lf => .ok (.suScaled sf lf)
        else if t = RSVal.str "linear" then
          (linearScale d).map (fun s =>
            .plain c.rope_traditional c.rope_theta s)
        else .ok (.plain c.rope_traditional c.rope_theta 1)

/-- `true` on a successful `Except` result. -/
def exOk {ε α : Type} : Except ε α → Bool
  | .ok _ => true
  | .error _ => false

/-! ## Input modes and forward-time routing (`Phi4Model.__call__`, 244-260)

The `InputMode` enum lives in `processing_phi4mm`, outside the embedded
file; its four members and integer values are modelled from the spec. -/

/-- Modelled from the spec: the `InputMode` enum with members
LANGUAGE = 0, VISION = 1, SPEECH = 2, VISION_SPEECH = 3. -/
inductive InputMode
  | language
  | vision
  | speech
  | visionSpeech
deriving DecidableEq

/-- Modelled from the spec: the `InputMode(value)` enum constructor, which
raises `ValueError` on any value that is not one of the four members. -/
def InputMode.ofInt (n : Int) : Except String InputMode :=
  if n = 0 then .ok .language
  else if n = 1 then .ok .vision
  else if n = 2 then .ok .speech
  else if n = 3 then .ok .visionSpeech
  else .error "ValueError not a valid InputMode"

/-- The shape of the `input_mode` keyword argument: omitted (defaults to
`None`), a raw integer, or an `mx.array` of integers. -/
inductive ModeArg
  | missing
  | scalar (n : Int)
  | array (l : List Int)
deriving DecidableEq

/-- Lines 244-248: pop `input_mode` (default `None`); if it is an array,
assert it has exactly one element and take that element; then coerce with
`InputMode(...)`.  `InputMode(None)` raises `ValueError`. -/
def parseInputMode : ModeArg → Except String InputMode
  | .missing => .error "ValueError not a valid InputMode"
  | .scalar n => InputMode.ofInt n
  | .array l =>
    match l with
    | [n] => InputMode.ofInt n
    | _ => .error "AssertionError input_mode must have exactly one element"

/-- One adapter-wrapped linear projection: its fully-qualified name, the
adapter tags attached to it (in attachment order), and the currently
active tag.  Modelled from the spec: the AdapterLayer holds zero or more
named low-rank deltas with at most one active at a time. -/
structure AdapterSlot where
  name : String
  attached : List String
  active : Option String
deriving DecidableEq

/-- The vision attachment pass (lines 197-209) on one projection site:
a bare linear whose pristine name matches the vision pattern is replaced
by a vision `LoRaLayer` wrapper holding the bare linear (the wrapper is
supplied by the trainer utilities outside this file; it stores the
wrapped linear under the attribute `base_layer`, as the
`name.replace(".base_layer", "")` of line 228 witnesses). -/
def visionSet (vp : String → Bool) (n : String) : AdapterSlot :=
  if vp n then ⟨n, ["vision"], none⟩ else ⟨n, [], none⟩

/-- The speech attachment pass (lines 217-229) on one projection site.
The second `named_modules()` traversal enumerates only bare linears
(the `isinstance` check of line 218 skips `LoRaLayer` wrappers), so a
vision-wrapped site is seen through its inner bare linear at the name
`<name>.base_layer`, while an unwrapped site is seen at its pristine
name.  On a speech-pattern match, a fresh `LoRaLayer` holding only the
speech delta is built around that bare linear (line 221-227) and set at
the stripped name (lines 228-229), replacing whatever module was there —
in particular discarding a vision wrapper. -/
def speechSet (sp : String → Bool) (s : AdapterSlot) : AdapterSlot :=
  if sp (if s.attached.isEmpty then s.name else s.name ++ ".base_layer") then
    ⟨s.name, ["speech"], none⟩
  else s

/-- The construction-time portion of `Phi4Model.__init__` that the claims
depend on: the `vocab_size` assertion (line 175), the `vision_lora`
assertion (line 192) followed by the vision attachment pass, then the
`speech_lora` assertion (line 216) followed by the speech attachment
pass over the re-enumerated module tree. -/
def phi4ModelBuild (c : ModelConfig) (names : List String) :
    Except String (List AdapterSlot) :=
  if c.vocab_size = 0 then .error "AssertionError vocab_size must be positive"
  else
    match c.vision_lora with
    | none => .error "AssertionError vision_lora is required"
    | some vl =>
      let s1 := names.map (visionSet vl.layer)
      match c.speech_lora with
      | none => .error "AssertionError speech_lora is required"
      | some sl => .ok (s1.map (speechSet sl.layer))

/-- Modelled from the spec: `set_lora_adapter(tag)` activates the delta
with that tag on every projection holding it and deactivates the rest. -/
def setLoraAdapter (tag : String) (ss : List AdapterSlot) : List AdapterSlot :=
  ss.map (fun s =>
    if tag ∈ s.attached then {s with active := some tag}
    else {s with active := none})

/-- Modelled from the spec: `unset_lora_adapter()` deactivates every
adapter. -/
def unsetLoraAdapter (ss : List AdapterSlot) : List AdapterSlot :=
  ss.map (fun s => {s with active := none})

/-- The mode dispatch of `Phi4Model.__call__` (lines 250-260): the new
adapter states together with the `audio_projection_mode` string.  The
`else: raise ValueError` arm is unreachable once the tag has been coerced
by `InputMode(...)`, since the four recognized members are all covered. -/
def routeMode (m : InputMode) (ss : List AdapterSlot) :
    List AdapterSlot × String :=
  match m with
  | .vision => (setLoraAdapter "vision" ss, "vision")
  | .visionSpeech => (setLoraAdapter "vision" ss, "vision")
  | .speech => (setLoraAdapter "speech" ss, "speech")
  | .language => (unsetLoraAdapter ss, "speech")

/-! ## Embedding selection and fusion (`Phi4Model.__call__`, 262-276) -/

/-- Modelled from the spec: `Phi4MMImageAudioEmbedding` merges token
embeddings with injected image/audio embeddings; when no image or audio
embedding tensors are supplied it delegates to the standard
token-embedding lookup.  The merge rule itself is owned by the external
encoder collaborators and is therefore an abstract parameter. -/
def fusionEmbed {Vn Dn : ℕ} {EmbT : Type}
    (merge : List (QVec Dn) → Option EmbT → Option EmbT → String → List (QVec Dn))
    (wte : Fin Vn → QVec Dn) (ids : List (Fin Vn))
    (ie ae : Option EmbT) (apm : String) : List (QVec Dn) :=
  match ie, ae with
  | none, none => ids.map wte
  | _, _ => merge (ids.map wte) ie ae apm

/-- Lines 177-185 of `Phi4Model.__init__`: `embed_tokens_extend` is built
only when `config.embd_layer` is a dict, and is `None` otherwise. -/
def mkExtend {Vn Dn : ℕ} {EmbT : Type}
    (embd_layer : Option (List (String × String)))
    (merge : List (QVec Dn) → Option EmbT → Option EmbT → String → List (QVec Dn)) :
    Option ((Fin Vn → QVec Dn) → List (Fin Vn) → Option EmbT → Option EmbT → String → List (QVec Dn)) :=
  embd_layer.map (fun _ => fusionEmbed merge)

/-- Lines 262-276: when `pixel_values` is `None` the forward call invokes
`self.embed_tokens_extend(...)` (a `TypeError` when that attribute is
`None`); otherwise the hidden state is the plain token-embedding lookup
`self.embed_tokens(input_ids)`. -/
def phi4Hidden {Vn Dn : ℕ} {EmbT PVT : Type}
    (extend : Option ((Fin Vn → QVec Dn) → List (Fin Vn) → Option EmbT → Option EmbT → String → List (QVec Dn)))
    (wte : Fin Vn → QVec Dn) (pv : Option PVT) (ids : List (Fin Vn))
    (ie ae : Option EmbT) (apm : String) : Except String (List (QVec Dn)) :=
  match pv with
  | some _ => .ok (ids.map wte)
  | none =>
    match extend with
    | none => .error "TypeError NoneType object is not callable"
    | some f => .ok (f wte ids ie ae apm)

/-- The arguments of a forward call that the claims depend on. -/
structure ForwardArgs (Vn : ℕ) (EmbT PVT : Type) where
  input_mode : ModeArg
  pixel_values : Option PVT
  input_ids : List (Fin Vn)
  input_image_embeds : Option EmbT
  input_audio_embeds : Option EmbT

/-- The argument-handling half of `Phi4Model.__call__` (lines 244-276):
parse the input mode, switch the adapters, pick the audio-projection
pathway, then select the hidden-state source.  A successful result carries
the routed adapter states, the audio-projection mode and the hidden
states handed to the transformer layers. -/
def phi4Forward {Vn Dn : ℕ} {EmbT PVT : Type} (slots : List AdapterSlot)
    (extend : Option ((Fin Vn → QVec Dn) → List (Fin Vn) → Option EmbT → Option EmbT → String → List (QVec Dn)))
    (wte : Fin Vn → QVec Dn) (a : ForwardArgs Vn EmbT PVT) :
    Except String (List AdapterSlot × String × List (QVec Dn)) :=
  match parseInputMode a.input_mode with
  | .error msg => .error msg
  | .ok m =>
    let rt := routeMode m slots
    match phi4Hidden extend wte a.pixel_values a.input_ids
        a.input_image_embeds a.input_audio_embeds rt.2 with
    | .error msg => .error msg
    | .ok h => .ok (rt.1, rt.2, h)

/-! ## The language-model head (`Model.__init__` 295-296, `Model.__call__` 308-311) -/

/-- Line 295-296: `lm_head` is created only when embeddings are untied. -/
def mkLmHead {Vn Dn : ℕ} (tie : Bool) (W : QMat Vn Dn) : Option (QMat Vn Dn) :=
  if tie then none else some W

/-- Matrix transpose (used to state the tied-head property). -/
def matTrans {m n : ℕ} (M : QMat m n) : QMat n m := fun i j => M j i

/-- Lines 308-311: tied models reuse the embedding table as a linear map
(`embed_tokens.as_linear`); untied models apply the dedicated
projection. -/
def lmHeadApply {Vn Dn : ℕ} (tie : Bool) (emb : QMat Vn Dn)
    (lmHead : Option (QMat Vn Dn)) (h : QVec Dn) : QVec Vn :=
  if tie then matApply emb h else matApply (lmHead.getD (fun _ _ => 0)) h

/-! ## The transformer stack and the KV cache (C1 machinery)

The stack is embedded over exact rationals.  External numeric
collaborators appear as abstract parameters of the stack: the softmax
kernel of `mx.fast.scaled_dot_product_attention` (its exponential,
modelled from the spec as an arbitrary score-weight function `w`), the
rotary rotation applied at an absolute position (covering both `nn.RoPE`
and `SuScaledRotaryEmbedding`, which rotate a head vector as a function of
its absolute position only), the per-position `nn.RMSNorm` maps, the SiLU
activation, and the head-dimension scale. -/

/-- Map over a list together with the absolute position of each element,
starting at a given offset. -/
def mapWithPos {α β : Type} (f : ℕ → α → β) : ℕ → List α → List β
  | _, [] => []
  | n, a :: as => f n a :: mapWithPos f (n + 1) as

/-- Additive attention-mask entries: `some v` is a finite additive bias,
`none` is the minus-infinity of a masked position. -/
abbrev MaskEntry := Option ℚ

/-- Modelled from the spec: the causal mask synthesized by the external
`create_attention_mask` collaborator, offset by the cache length — query
row `i` may attend key column `j` exactly when `j ≤ offset + i`. -/
def causalMask (off : ℕ) : ℕ → ℕ → MaskEntry :=
  fun i j => if j ≤ off + i then some 0 else none

/-- Softmax weight of one possibly-masked score: a masked position
contributes weight zero, a finite score `s` contributes `w s` (with
`w = exp` this is exactly softmax). -/
def weightOf (w : ℚ → ℚ) : MaskEntry → ℚ
  | none => 0
  | some s => w s

/-- The unnormalized softmax weights of one query row: the masked, scaled
query-key scores passed through the weight kernel. -/
def rowWeights (w : ℚ → ℚ) (scale : ℚ) {hd : ℕ} (q : QVec hd) :
    List (QVec hd) → (ℕ → MaskEntry) → List ℚ
  | [], _ => []
  | k :: ks, m =>
    weightOf w ((m 0).map (fun a => a + scale * qdot q k)) ::
      rowWeights w scale q ks (fun j => m (j + 1))

/-- Weighted sum of value vectors. -/
def wsum {d : ℕ} : List ℚ → List (QVec d) → QVec d
  | c :: cs, v :: vs => vadd (vsmul c v) (wsum cs vs)
  | _, _ => vzero

/-- Modelled from the spec: one query row of scaled dot-product attention —
normalized convex combination of the values under the masked softmax
weights. -/
def attendRow (w : ℚ → ℚ) (scale : ℚ) {hd : ℕ} (q : QVec hd)
    (ks vs : List (QVec hd)) (m : ℕ → MaskEntry) : QVec hd :=
  vsmul (rowWeights w scale q ks m).sum⁻¹ (wsum (rowWeights w scale q ks m) vs)

/-- Per-layer weights of one `TransformerBlock`: the fused `qkv_proj`, the
output projection `o_proj`, the two RMSNorm maps (external modules,
abstract per-position functions), and the fused `gate_up_proj` /
`down_proj` of the MLP. -/
structure LayerP (D H HK hd Im : ℕ) where
  wqkv : QMat (H * hd + (HK * hd + HK * hd)) D
  wo : QMat D (H * hd)
  normA : QVec D → QVec D
  normB : QVec D → QVec D
  wgu : QMat (Im + Im) D
  wdown : QMat D Im

/-- The whole `Phi4Model`/`Model` pair: dimensions, the shared abstract
numeric collaborators, the layer weights, final norm, embedding table and
head. -/
structure StackP where
  D : ℕ
  H : ℕ
  HK : ℕ
  hd : ℕ
  Im : ℕ
  Voc : ℕ
  hHK : 0 < HK
  hhd : 0 < hd
  w : ℚ → ℚ
  scale : ℚ
  act : ℚ → ℚ
  rope : ℕ → QVec hd → QVec hd
  layers : List (LayerP D H HK hd Im)
  finalNorm : QVec D → QVec D
  emb : QMat Voc D
  tie : Bool
  lmHeadW : Option (QMat Voc D)

/-- Index of component `i` of query head `h` inside the fused qkv output
(the split at `query_pos` and the reshape of lines 107-113). -/
def qIndex {H HK hd : ℕ} (h : Fin H) (i : Fin hd) :
    Fin (H * hd + (HK * hd + HK * hd)) :=
  ⟨h.1 * hd + i.1, by
    calc h.1 * hd + i.1 < h.1 * hd + hd := Nat.add_lt_add_left i.2 _
      _ = (h.1 + 1) * hd := by ring
      _ ≤ H * hd := Nat.mul_le_mul_right hd h.2
      _ ≤ H * hd + (HK * hd + HK * hd) := Nat.le_add_right _ _⟩

/-- Index of component `i` of key head `g` inside the fused qkv output. -/
def kIndex {H HK hd : ℕ} (g : Fin HK) (i : Fin hd) :
    Fin (H * hd + (HK * hd + HK * hd)) :=
  ⟨H * hd + (g.1 * hd + i.1), by
    have hb : g.1 * hd + i.1 < HK * hd := by
      calc g.1 * hd + i.1 < g.1 * hd + hd := Nat.add_lt_add_left i.2 _
        _ = (g.1 + 1) * hd := by ring
        _ ≤ HK * hd := Nat.mul_le_mul_right hd g.2
    omega⟩

/-- Index of component `i` of value head `g` inside the fused qkv output. -/
def vIndex {H HK hd : ℕ} (g : Fin HK) (i : Fin hd) :
    Fin (H * hd + (HK * hd + HK * hd)) :=
  ⟨H * hd + (HK * hd + (g.1 * hd + i.1)), by
    have hb : g.1 * hd + i.1 < HK * hd := by
      calc g.1 * hd + i.1 < g.1 * hd + hd := Nat.add_lt_add_left i.2 _
        _ = (g.1 + 1) * hd := by ring
        _ ≤ HK * hd := Nat.mul_le_mul_right hd g.2
    omega⟩

/-- Query heads of one token: fused projection, split, reshape
(lines 106-113). -/
def qHeads (P : StackP) (lp : LayerP P.D P.H P.HK P.hd P.Im) (x : QVec P.D) :
    Fin P.H → QVec P.hd :=
  fun h i => matApply lp.wqkv x (qIndex h i)

/-- Key heads of one token. -/
def kHeads (P : StackP) (lp : LayerP P.D P.H P.HK P.hd P.Im) (x : QVec P.D) :
    Fin P.HK → QVec P.hd :=
  fun g i => matApply lp.wqkv x (kIndex g i)

/-- Value heads of one token. -/
def vHeads (P : StackP) (lp : LayerP P.D P.H P.HK P.hd P.Im) (x : QVec P.D) :
    Fin P.HK → QVec P.hd :=
  fun g i => matApply lp.wqkv x (vIndex g i)

/-- The key/value head serving query head `h` under grouped-query
broadcast (`n_kv_heads` may divide `n_heads`; the kernel repeats each
key/value head across `H / HK` query heads). -/
def kvIdx (P : StackP) (h : Fin P.H) : Fin P.HK :=
  ⟨h.1 / (P.H / P.HK) % P.HK, Nat.mod_lt _ P.hHK⟩

/-- Merge the per-head attention outputs back into a flat vector (the
transpose/reshape of line 128). -/
def mergeHeads (P : StackP) (o : Fin P.H → QVec P.hd) : QVec (P.H * P.hd) :=
  fun j => o ⟨j.1 / P.hd, (Nat.div_lt_iff_lt_mul P.hhd).2 j.2⟩ ⟨j.1 % P.hd, Nat.mod_lt _ P.hhd⟩

/-- Rotary-encode a list of per-head token vectors, position-wise starting
at `off` (both rope variants rotate a head vector as a function of its
absolute position only; `offset = cache.offset` in the cached path and 0
otherwise). -/
def ropeAll (P : StackP) {n : ℕ} (off : ℕ)
    (ts : List (Fin n → QVec P.hd)) : List (Fin n → QVec P.hd) :=
  mapWithPos (fun t f => fun a => P.rope t (f a)) off ts

/-- The column of one key/value head across a token list. -/
def colOf {HK hd : ℕ} (g : Fin HK) (ts : List (Fin HK → QVec hd)) :
    List (QVec hd) :=
  ts.map (fun f => f g)

/-- `Attention.__call__` without a cache (lines 98-129, `cache is None`
branch): fused projection and split per token, rotary at offset 0,
masked scaled dot-product attention over the whole window, merge and
output projection. -/
def attnFull (P : StackP) (lp : LayerP P.D P.H P.HK P.hd P.Im)
    (mask : ℕ → ℕ → MaskEntry) (xs : List (QVec P.D)) : List (QVec P.D) :=
  let qs := ropeAll P 0 (xs.map (qHeads P lp))
  let ks := ropeAll P 0 (xs.map (kHeads P lp))
  let vs := xs.map (vHeads P lp)
  let rows := mapWithPos (fun i q => fun h : Fin P.H =>
    attendRow P.w P.scale (q h) (colOf (kvIdx P h) ks) (colOf (kvIdx P h) vs)
      (fun j => mask i j)) 0 qs
  rows.map (fun o => matApply lp.wo (mergeHeads P o))

/-- `MLP.__call__` (lines 138-141): fused gate_up projection, split into
halves, gated activation, down projection. -/
def mlp (P : StackP) (lp : LayerP P.D P.H P.HK P.hd P.Im) (x : QVec P.D) :
    QVec P.D :=
  let y := matApply lp.wgu x
  matApply lp.wdown (fun j =>
    P.act (y ⟨j.1, by have := j.2; omega⟩) * y ⟨P.Im + j.1, by have := j.2; omega⟩)

/-- `TransformerBlock.__call__` (lines 156-166) on a whole window, no
cache: pre-norm attention with the causal mask, residual, pre-norm MLP,
residual. -/
def layerFull (P : StackP) (lp : LayerP P.D P.H P.HK P.hd P.Im)
    (xs : List (QVec P.D)) : List (QVec P.D) :=
  let r := attnFull P lp (causalMask 0) (xs.map lp.normA)
  let h := List.zipWith vadd xs r
  List.zipWith vadd h (h.map (fun t => mlp P lp (lp.normB t)))

/-- One per-layer KV cache slot, per the external collaborator contract:
append-only per-head key/value lists whose length is the decode offset. -/
structure KVCacheState (P : StackP) where
  keys : List (Fin P.HK → QVec P.hd)
  values : List (Fin P.HK → QVec P.hd)

/-- A fresh cache slot. -/
def KVCacheState.empty (P : StackP) : KVCacheState P := ⟨[], []⟩

/-- `Attention.__call__` with a cache on a single new token (the cached
branch of lines 117-120 with `L = 1`): rotary at `cache.offset`,
`update_and_fetch` appends and returns all keys/values, and the new token
attends over the whole fetched sequence (the synthesized causal-mask row
of a single query at this offset allows every cached position). -/
def attnStep (P : StackP) (lp : LayerP P.D P.H P.HK P.hd P.Im)
    (c : KVCacheState P) (x : QVec P.D) : QVec P.D × KVCacheState P :=
  let off := c.keys.length
  let q := fun h : Fin P.H => P.rope off (qHeads P lp x h)
  let k := fun g : Fin P.HK => P.rope off (kHeads P lp x g)
  let ks := c.keys ++ [k]
  let vs := c.values ++ [vHeads P lp x]
  let o := fun h : Fin P.H =>
    attendRow P.w P.scale (q h) (colOf (kvIdx P h) ks) (colOf (kvIdx P h) vs)
      (fun j => causalMask off 0 j)
  (matApply lp.wo (mergeHeads P o), ⟨ks, vs⟩)

/-- `TransformerBlock.__call__` on a single new token against a cache
slot. -/
def layerStep (P : StackP) (lp : LayerP P.D P.H P.HK P.hd P.Im)
    (c : KVCacheState P) (x : QVec P.D) : QVec P.D × KVCacheState P :=
  let rc := attnStep P lp c (lp.normA x)
  let h := vadd x rc.1
  (vadd h (mlp P lp (lp.normB h)), rc.2)

/-- One decode step through the whole stack (lines 284-285 with a
one-token window), threading each layer against its own cache slot. -/
def stackStep (P : StackP) :
    List (LayerP P.D P.H P.HK P.hd P.Im) → List (KVCacheState P) →
      QVec P.D → QVec P.D × List (KVCacheState P)
  | [], _, x => (x, [])
  | lp :: ls, cs, x =>
    let yc := layerStep P lp (cs.headD (KVCacheState.empty P)) x
    let rest := stackStep P ls cs.tail yc.1
    (rest.1, yc.2 :: rest.2)

/-- The non-incremental stack (lines 284-285 with `cache = None` and the
fixed causal mask). -/
def stackFull (P : StackP) (ls : List (LayerP P.D P.H P.HK P.hd P.Im))
    (xs : List (QVec P.D)) : List (QVec P.D) :=
  ls.foldl (fun a lp => layerFull P lp a) xs

/-- Final norm (line 287) followed by the LM head (lines 308-311). -/
def lmHeadOut (P : StackP) (h : QVec P.D) : QVec P.Voc :=
  lmHeadApply P.tie P.emb P.lmHeadW (P.finalNorm h)

/-- Logits of the single non-incremental full-sequence pass. -/
def runFull (P : StackP) (ids : List (Fin P.Voc)) : List (QVec P.Voc) :=
  (stackFull P P.layers (ids.map (fun t => P.emb t))).map (fun h => lmHeadOut P h)

/-- Incremental decoding: feed the tokens one at a time, threading the
per-layer caches, collecting the logits of each step. -/
def runIncrAux (P : StackP) :
    List (Fin P.Voc) → List (KVCacheState P) → List (QVec P.Voc)
  | [], _ => []
  | t :: ts, cs =>
    let sc := stackStep P P.layers cs (P.emb t)
    lmHeadOut P sc.1 :: runIncrAux P ts sc.2

/-- Incremental decoding of a whole token sequence from fresh caches. -/
def runIncr (P : StackP) (ids : List (Fin P.Voc)) : List (QVec P.Voc) :=
  runIncrAux P ids (P.layers.map (fun _ => KVCacheState.empty P))

/-- The cache contents denoted by a processed window `ys` (inputs already
normalized): rotary-encoded keys and raw values of every position. -/
def rawKV (P : StackP) (lp : LayerP P.D P.H P.HK P.hd P.Im)
    (ys : List (QVec P.D)) : KVCacheState P :=
  ⟨ropeAll P 0 (ys.map (kHeads P lp)), ys.map (vHeads P lp)⟩

/-- The cache state of one layer after incrementally processing the raw
window `xs`. -/
def cacheOf (P : StackP) (lp : LayerP P.D P.H P.HK P.hd P.Im)
    (xs : List (QVec P.D)) : KVCacheState P :=
  rawKV P lp (xs.map lp.normA)

/-- The per-layer cache states after incrementally processing `ys`:
each layer caches the hidden states entering it. -/
def cachesOf (P : StackP) :
    List (LayerP P.D P.H P.HK P.hd P.Im) → List (QVec P.D) →
      List (KVCacheState P)
  | [], _ => []
  | lp :: ls, ys => cacheOf P lp ys :: cachesOf P ls (layerFull P lp ys)

/-! ## Concrete instances used by the witnesses -/

/-- The two construction passes composed: the vision pass over pristine
names first, then the speech pass over the re-enumerated module tree
(the successful-path result of `phi4ModelBuild`). -/
def builtSlots (names : List String) (vl sl : LoraCfg) : List AdapterSlot :=
  (names.map (visionSet vl.layer)).map (speechSet sl.layer)

/-- A concrete vision LoRA descriptor. -/
def visionLoraEx : LoraCfg :=
  ⟨8, 8, 0, fun n => n == "layers.0.self_attn.qkv_proj"⟩

/-- A concrete speech LoRA descriptor matching an overlapping set of
projections. -/
def speechLoraEx : LoraCfg :=
  ⟨4, 4, 0, fun n => n == "layers.0.self_attn.qkv_proj" || n == "layers.0.mlp.down_proj"⟩

/-- A concrete well-formed configuration. -/
def baseCfg : ModelConfig where
  model_type := "phi4mm"
  hidden_size := 4
  num_hidden_layers := 1
  intermediate_size := 4
  num_attention_heads := 2
  rms_norm_eps := 1
  vocab_size := 3
  num_key_value_heads := none
  rope_theta := 10000
  rope_traditional := false
  rope_scaling := none
  tie_word_embeddings := false
  embd_layer := none
  vision_lora := some visionLoraEx
  speech_lora := some speechLoraEx

/-- The projection names of the C3 concrete instance. -/
def c3names : List String := ["layers.0.self_attn.qkv_proj"]

/-- A vision pattern matching the concrete projection. -/
def visionLoraC3 : LoraCfg :=
  ⟨8, 8, 0, fun n => n == "layers.0.self_attn.qkv_proj"⟩

/-- A speech pattern (unanchored, as `re.match` patterns are) matching
the concrete projection both on its pristine name and on the
`.base_layer`-suffixed name its bare linear carries once
vision-wrapped. -/
def speechLoraC3 : LoraCfg :=
  ⟨4, 4, 0, fun n => n == "layers.0.self_attn.qkv_proj" ||
    n == "layers.0.self_attn.qkv_proj.base_layer"⟩

/-- The concrete configuration of the C3 counterexample: one projection
matched by both patterns. -/
def c3cfg : ModelConfig :=
  {baseCfg with vision_lora := some visionLoraC3, speech_lora := some speechLoraC3}

/-- A `su`-type scaling dict carrying only the two required keys, with no
`short_factor`. -/
def c5dict : RopeDict :=
  [("type", RSVal.str "su"), ("long_factor", RSVal.list [1, 2])]

/-- The concrete configuration of the C5 counterexample. -/
def c5cfg : ModelConfig := {baseCfg with rope_scaling := some c5dict}

/-- A scaling dict with both required keys but an unrecognized type. -/
def c6dict : RopeDict :=
  [("type", RSVal.str "unsupported"), ("long_factor", RSVal.list [1, 2])]

/-- The concrete configuration of the C6 witness. -/
def c6cfg : ModelConfig := {baseCfg with rope_scaling := some c6dict}

/-! ## Configuration-time rope-scaling claims (C5, C6) -/

/-- C5 counterexample: a `su`-type `rope_scaling` dict that supplies the
`long_factor` table but no `short_factor` table still constructs
successfully at configuration-construction time, refuting the claim that
configuration construction succeeds only when both factor tables are
supplied. -/
theorem C5_counterexample :
    exOk (ModelConfig.postInitChecked c5cfg) = true ∧
    rdHas c5dict "short_factor" = false ∧
    rdGet c5dict "type" = some (RSVal.str "su") ∧
    rdHas c5dict "long_factor" = true :=
  ⟨rfl, by decide, by decide, by decide⟩

/-- C5 (amended): with a truthy `rope_scaling` dict, configuration
construction succeeds exactly when the two required keys `long_factor`
and `type` are present; the short-factor requirement of su/longrope
scaling is enforced only later, at attention-block construction, where a
missing `short_factor` raises a `KeyError` even though the configuration
itself constructed successfully. -/
theorem C5_amended_required_keys (c : ModelConfig) (d : RopeDict)
    (hrs : c.rope_scaling = some d) (hne : d.isEmpty = false) :
    (exOk c.postInitChecked = true ↔
      (rdHas d "long_factor" = true ∧ rdHas d "type" = true)) ∧
    (∀ tv, rdGet d "type" = some tv →
      (tv = RSVal.str "longrope" ∨ tv = RSVal.str "su") →
      rdHas d "long_factor" = true → rdHas d "short_factor" = false →
      c.postInitChecked = .ok (resolveKV c, false) ∧
      attnRope (resolveKV c) = .error "KeyError short_factor") := by
  constructor
  · simp only [ModelConfig.postInitChecked, hrs, hne]
    by_cases hR : recognizedType (rdGet d "type") <;>
      cases hL : rdHas d "long_factor" <;> cases hT : rdHas d "type" <;>
        simp [hL, hT, hR, exOk]
  · intro tv hty htv hlf hsf
    have hht : rdHas d "type" = true := by simp [rdHas, hty]
    have hrec : recognizedType (rdGet d "type") := by
      rw [hty]; rcases htv with h | h <;> simp [recognizedType, h]
    have hsf2 : rdGet d "short_factor" = none := by
      cases hx : rdGet d "short_factor" with
      | none => rfl
      | some v => simp [rdHas, hx] at hsf
    have hrs2 : (resolveKV c).rope_scaling = some d := hrs
    constructor
    · simp [ModelConfig.postInitChecked, hrs, hne, hlf, hht, hrec]
    · simp [attnRope, hrs2, hne, hty, htv, hsf2]

/-- C5 witness: the amended claim at the concrete su-without-short
configuration. -/
theorem C5_amended_witness :
    ModelConfig.postInitChecked c5cfg = .ok (resolveKV c5cfg, false) ∧
    attnRope (resolveKV c5cfg) = .error "KeyError short_factor" :=
  (C5_amended_required_keys c5cfg c5dict rfl (by decide)).2 (RSVal.str "su")
    (by decide) (Or.inr rfl) (by decide) (by decide)

/-- C6: a `rope_scaling` dict that has the required keys `type` and
`long_factor` but an unrecognized `type` is non-fatal: `__post_init__`
succeeds with the warning flag set and `rope_scaling` reset to `None`,
and attention-block construction then selects the plain rotary encoding
with scale 1 — the same rotary selection as for a configuration whose
`rope_scaling` is unset. -/
theorem C6_unrecognized_type_nonfatal (c : ModelConfig) (d : RopeDict)
    (tv : RSVal) (hrs : c.rope_scaling = some d) (hne : d.isEmpty = false)
    (hlf : rdHas d "long_factor" = true) (hty : rdGet d "type" = some tv)
    (h1 : tv ≠ RSVal.str "longrope") (h2 : tv ≠ RSVal.str "su")
    (h3 : tv ≠ RSVal.str "linear") :
    c.postInitChecked = .ok ({resolveKV c with rope_scaling := none}, true) ∧
    attnRope {resolveKV c with rope_scaling := none} =
      .ok (.plain c.rope_traditional c.rope_theta 1) ∧
    attnRope {resolveKV c with rope_scaling := none} =
      attnRope {c with rope_scaling := none} := by
  have hht : rdHas d "type" = true := by simp [rdHas, hty]
  have hrec : ¬ recognizedType (rdGet d "type") := by
    rw [hty]; simp [recognizedType, h1, h2, h3]
  refine ⟨?_, rfl, rfl⟩
  simp [ModelConfig.postInitChecked, hrs, hne, hlf, hht, hrec]

/-- C6 witness at the concrete unrecognized-type configuration. -/
theorem C6_witness :
    ModelConfig.postInitChecked c6cfg =
      .ok ({resolveKV c6cfg with rope_scaling := none}, true) ∧
    attnRope {resolveKV c6cfg with rope_scaling := none} =
      .ok (.plain c6cfg.rope_traditional c6cfg.rope_theta 1) ∧
    attnRope {resolveKV c6cfg with rope_scaling := none} =
      attnRope {c6cfg with rope_scaling := none} :=
  C6_unrecognized_type_nonfatal c6cfg c6dict (RSVal.str "unsupported") rfl
    (by decide) (by decide) (by decide) (by decide) (by decide) (by decide)

/-! ## Adapter routing and construction claims (C2, C3, C9) -/

/-- C2: the forward-time mode dispatch — VISION and VISION_SPEECH set
every adapter holding a "vision" delta to active tag "vision"; SPEECH
sets every adapter holding a "speech" delta to active tag "speech" and
routes audio through the "speech" projection pathway; LANGUAGE
deactivates every adapter while still selecting the "speech" audio
projection pathway. -/
theorem C2_mode_routing (m : InputMode) (ss : List AdapterSlot)
    (s : AdapterSlot) :
    ((m = InputMode.vision ∨ m = InputMode.visionSpeech) →
      s ∈ (routeMode m ss).1 → "vision" ∈ s.attached →
      s.active = some "vision") ∧
    (m = InputMode.speech → (routeMode m ss).2 = "speech" ∧
      (s ∈ (routeMode m ss).1 → "speech" ∈ s.attached →
        s.active = some "speech")) ∧
    (m = InputMode.language → (routeMode m ss).2 = "speech" ∧
      (s ∈ (routeMode m ss).1 → s.active = none)) := by
  refine ⟨?_, ?_, ?_⟩
  · rintro (rfl | rfl) hs hv <;>
    · simp only [routeMode, setLoraAdapter, List.mem_map] at hs
      obtain ⟨t, ht, rfl⟩ := hs
      by_cases h : "vision" ∈ t.attached
      · simp [h]
      · simp [h] at hv
  · rintro rfl
    refine ⟨rfl, ?_⟩
    intro hs hv
    simp only [routeMode, setLoraAdapter, List.mem_map] at hs
    obtain ⟨t, ht, rfl⟩ := hs
    by_cases h : "speech" ∈ t.attached
    · simp [h]
    · simp [h] at hv
  · rintro rfl
    refine ⟨rfl, ?_⟩
    intro hs
    simp only [routeMode, unsetLoraAdapter, List.mem_map] at hs
    obtain ⟨t, ht, rfl⟩ := hs
    rfl

/-- C2 witness at one concrete adapter list in SPEECH mode. -/
theorem C2_witness :
    (routeMode InputMode.speech [⟨"p", ["speech"], none⟩]).2 = "speech" ∧
    (AdapterSlot.mk "p" ["speech"] (some "speech")).active = some "speech" :=
  ⟨((C2_mode_routing InputMode.speech [⟨"p", ["speech"], none⟩]
      ⟨"p", ["speech"], some "speech"⟩).2.1 rfl).1,
   ((C2_mode_routing InputMode.speech [⟨"p", ["speech"], none⟩]
      ⟨"p", ["speech"], some "speech"⟩).2.1 rfl).2 (by decide) (by decide)⟩

/-- C3 counterexample: at a concrete configuration in which one
projection is matched by both adapter patterns — even by the speech
pattern on the pristine name as well as on the `.base_layer`-suffixed
name — construction leaves the projection holding only the speech
adapter: the fresh speech wrapper built by the second pass replaces the
vision wrapper at the stripped name, refuting the claim that a
doubly-matched projection ends up holding both adapters. -/
theorem C3_counterexample :
    visionLoraC3.layer "layers.0.self_attn.qkv_proj" = true ∧
    speechLoraC3.layer "layers.0.self_attn.qkv_proj" = true ∧
    phi4ModelBuild c3cfg c3names =
      .ok [⟨"layers.0.self_attn.qkv_proj", ["speech"], none⟩] :=
  ⟨by decide, by decide, rfl⟩

/-- C3 (amended): at construction time the vision pass runs first over
the pristine projection names and the speech pass second over the
re-enumerated module tree, in which a vision-wrapped projection exposes
its bare linear under the `.base_layer` suffix; where the speech
pattern matches the enumerated name, a fresh speech-only wrapper
replaces the module at the stripped name.  Hence a projection matched by
the vision pattern and then by the speech pattern holds only the speech
adapter (never both); one matched only by vision keeps the vision
adapter; one matched by speech alone on its pristine name holds the
speech adapter; and under every input mode at most one tag is active,
the one the mode dictates. -/
theorem C3_construction_replacement (c : ModelConfig) (names : List String)
    (vl sl : LoraCfg) (hv : c.vision_lora = some vl)
    (hs : c.speech_lora = some sl) (hvoc : c.vocab_size ≠ 0) :
    phi4ModelBuild c names = .ok (builtSlots names vl sl) ∧
    (∀ s ∈ builtSlots names vl sl,
      (vl.layer s.name = true → sl.layer (s.name ++ ".base_layer") = true →
        s.attached = ["speech"]) ∧
      (vl.layer s.name = true → sl.layer (s.name ++ ".base_layer") = false →
        s.attached = ["vision"]) ∧
      (vl.layer s.name = false → sl.layer s.name = true →
        s.attached = ["speech"]) ∧
      (vl.layer s.name = false → sl.layer s.name = false →
        s.attached = [])) ∧
    (∀ m : InputMode, ∀ s ∈ (routeMode m (builtSlots names vl sl)).1,
      s.active = none ∨
        s.active = some (if m = InputMode.speech then "speech" else "vision")) := by
  refine ⟨?_, ?_, ?_⟩
  · simp [phi4ModelBuild, hv, hs, hvoc, builtSlots]
  · intro s hsmem
    simp only [builtSlots, List.map_map, List.mem_map] at hsmem
    obtain ⟨n, hn, rfl⟩ := hsmem
    simp only [Function.comp_apply]
    cases hb1 : vl.layer n <;> cases hb2 : sl.layer (n ++ ".base_layer") <;>
      cases hb3 : sl.layer n <;>
      simp [visionSet, speechSet, hb1, hb2, hb3]
  · intro m s hsmem
    cases m <;>
      simp only [routeMode, setLoraAdapter, unsetLoraAdapter,
        List.mem_map] at hsmem <;>
      obtain ⟨t, ht, rfl⟩ := hsmem
    · exact Or.inl rfl
    · by_cases h : "vision" ∈ t.attached <;> simp [h]
    · by_cases h : "speech" ∈ t.attached <;> simp [h]
    · by_cases h : "vision" ∈ t.attached <;> simp [h]

/-- C3 witness: the amended claim at the concrete doubly-matched
configuration. -/
theorem C3_witness :
    phi4ModelBuild c3cfg c3names =
      .ok (builtSlots c3names visionLoraC3 speechLoraC3) ∧
    (∀ s ∈ builtSlots c3names visionLoraC3 speechLoraC3,
      (visionLoraC3.layer s.name = true →
        speechLoraC3.layer (s.name ++ ".base_layer") = true →
        s.attached = ["speech"]) ∧
      (visionLoraC3.layer s.name = true →
        speechLoraC3.layer (s.name ++ ".base_layer") = false →
        s.attached = ["vision"]) ∧
      (visionLoraC3.layer s.name = false →
        speechLoraC3.layer s.name = true → s.attached = ["speech"]) ∧
      (visionLoraC3.layer s.name = false →
        speechLoraC3.layer s.name = false → s.attached = [])) ∧
    (∀ m : InputMode,
      ∀ s ∈ (routeMode m (builtSlots c3names visionLoraC3 speechLoraC3)).1,
      s.active = none ∨
        s.active = some (if m = InputMode.speech then "speech" else "vision")) :=
  C3_construction_replacement c3cfg c3names visionLoraC3 speechLoraC3
    rfl rfl (by decide)

/-- C9: model construction requires both adapter configurations — if
either `vision_lora` or `speech_lora` is `None`, `Phi4Model.__init__`
fails its assertion at construction time, before any forward call; a
successful construction therefore has both present. -/
theorem C9_lora_required (c : ModelConfig) (names : List String) :
    ((c.vision_lora = none ∨ c.speech_lora = none) →
      exOk (phi4ModelBuild c names) = false) ∧
    (exOk (phi4ModelBuild c names) = true →
      c.vision_lora ≠ none ∧ c.speech_lora ≠ none) := by
  constructor
  · intro h
    unfold phi4ModelBuild
    rcases h with h | h <;> rw [h]
    · split <;> rfl
    · cases hv : c.vision_lora <;> split <;> simp [exOk]
  · intro hok
    constructor <;> intro h <;> unfold phi4ModelBuild at hok <;> rw [h] at hok
    · by_cases hz : c.vocab_size = 0 <;> simp [hz, exOk] at hok
    · by_cases hz : c.vocab_size = 0 <;> cases hv : c.vision_lora <;>
        simp [hz, hv, exOk] at hok

/-- C9 witness: a configuration missing `speech_lora` fails to build. -/
theorem C9_witness :
    exOk (phi4ModelBuild {baseCfg with speech_lora := none} ["p"]) = false :=
  (C9_lora_required {baseCfg with speech_lora := none} ["p"]).1 (Or.inr rfl)

/-! ## Embedding-selection, invalid-mode and head claims (C4, C8, C10, C7) -/

/-- C4: whenever `pixel_values` is supplied the forward call bypasses the
multimodal fusion path entirely and the hidden state is the plain
token-embedding lookup of `input_ids`, whatever other embedding tensors
were passed; and the fusion module merges image/audio content only when
the dedicated `input_image_embeds`/`input_audio_embeds` tensors are
passed — with both absent the hidden state is again the plain lookup. -/
theorem C4_pixel_values_bypass {Vn Dn : ℕ} {EmbT PVT : Type}
    (merge : List (QVec Dn) → Option EmbT → Option EmbT → String → List (QVec Dn))
    (wte : Fin Vn → QVec Dn) (ids : List (Fin Vn)) (pv : Option PVT)
    (ie ae : Option EmbT) (apm : String) :
    (∀ x, pv = some x →
      ∀ extend, phi4Hidden extend wte pv ids ie ae apm = .ok (ids.map wte)) ∧
    (pv = none → ie = none → ae = none →
      phi4Hidden (some (fusionEmbed merge)) wte pv ids ie ae apm =
        .ok (ids.map wte)) := by
  constructor
  · rintro x rfl extend
    rfl
  · rintro rfl rfl rfl
    rfl

/-- C4 witness: concrete calls on both branches. -/
theorem C4_witness :
    phi4Hidden (some (fusionEmbed (fun l _ _ _ => l)))
        (fun _ : Fin 1 => (vzero : QVec 1)) (some ()) [(0 : Fin 1)]
        (some () : Option Unit) (none : Option Unit) "vision" =
      .ok ([(0 : Fin 1)].map (fun _ => (vzero : QVec 1))) ∧
    phi4Hidden (some (fusionEmbed (fun l _ _ _ => l)))
        (fun _ : Fin 1 => (vzero : QVec 1)) (none : Option Unit) [(0 : Fin 1)]
        (none : Option Unit) (none : Option Unit) "vision" =
      .ok ([(0 : Fin 1)].map (fun _ => (vzero : QVec 1))) :=
  ⟨(C4_pixel_values_bypass (fun l _ _ _ => l)
      (fun _ : Fin 1 => (vzero : QVec 1)) [(0 : Fin 1)] (some ())
      (some () : Option Unit) (none : Option Unit) "vision").1 () rfl _,
   (C4_pixel_values_bypass (fun l _ _ _ => l)
      (fun _ : Fin 1 => (vzero : QVec 1)) [(0 : Fin 1)] (none : Option Unit)
      (none : Option Unit) (none : Option Unit) "vision").2 rfl rfl rfl⟩

/-- C8: an unrecognized `input_mode` (including an omitted one, coerced
from `None`) makes the forward call fail immediately with the
invalid-mode error — the whole forward result is exactly that parse
error, so no adapter switching, embedding or layer computation has
occurred — and an array-shaped `input_mode` must hold exactly one
element. -/
theorem C8_invalid_mode_fails {Vn Dn : ℕ} {EmbT PVT : Type}
    (slots : List AdapterSlot)
    (extend : Option ((Fin Vn → QVec Dn) → List (Fin Vn) → Option EmbT → Option EmbT → String → List (QVec Dn)))
    (wte : Fin Vn → QVec Dn) (a : ForwardArgs Vn EmbT PVT) (msg : String)
    (hp : parseInputMode a.input_mode = .error msg) :
    phi4Forward slots extend wte a = .error msg ∧
    parseInputMode ModeArg.missing = .error "ValueError not a valid InputMode" ∧
    (∀ n : Int, n ≠ 0 → n ≠ 1 → n ≠ 2 → n ≠ 3 →
      parseInputMode (ModeArg.scalar n) =
        .error "ValueError not a valid InputMode") ∧
    (∀ l : List Int, l.length ≠ 1 →
      parseInputMode (ModeArg.array l) =
        .error "AssertionError input_mode must have exactly one element") := by
  refine ⟨?_, rfl, ?_, ?_⟩
  · unfold phi4Forward
    rw [hp]
  · intro n h0 h1 h2 h3
    simp [parseInputMode, InputMode.ofInt, h0, h1, h2, h3]
  · intro l hl
    rcases l with _ | ⟨n1, _ | ⟨n2, rest⟩⟩
    · rfl
    · exact absurd rfl hl
    · rfl

/-- C8 witness: an omitted input mode at a concrete model state. -/
theorem C8_witness :
    phi4Forward [] (none : Option ((Fin 1 → QVec 1) → List (Fin 1) → Option Unit → Option Unit → String → List (QVec 1)))
      (fun _ : Fin 1 => (vzero : QVec 1))
      (⟨ModeArg.missing, none, [], none, none⟩ : ForwardArgs 1 Unit Unit) =
      .error "ValueError not a valid InputMode" ∧
    parseInputMode ModeArg.missing = .error "ValueError not a valid InputMode" ∧
    (∀ n : Int, n ≠ 0 → n ≠ 1 → n ≠ 2 → n ≠ 3 →
      parseInputMode (ModeArg.scalar n) =
        .error "ValueError not a valid InputMode") ∧
    (∀ l : List Int, l.length ≠ 1 →
      parseInputMode (ModeArg.array l) =
        .error "AssertionError input_mode must have exactly one element") :=
  C8_invalid_mode_fails []
    (none : Option ((Fin 1 → QVec 1) → List (Fin 1) → Option Unit → Option Unit → String → List (QVec 1)))
    (fun _ : Fin 1 => (vzero : QVec 1))
    (⟨ModeArg.missing, none, [], none, none⟩ : ForwardArgs 1 Unit Unit)
    "ValueError not a valid InputMode" rfl

/-- C10: on a model built with `embd_layer` unset (no multimodal embedding
module), every forward call whose `pixel_values` is `None` fails — the
fusion path invokes the absent module — while a call that supplies
`pixel_values` (and a valid mode) completes through the plain
token-embedding branch. -/
theorem C10_missing_embd_layer {Vn Dn : ℕ} {EmbT PVT : Type}
    (slots : List AdapterSlot)
    (merge : List (QVec Dn) → Option EmbT → Option EmbT → String → List (QVec Dn))
    (wte : Fin Vn → QVec Dn) (a : ForwardArgs Vn EmbT PVT) :
    (a.pixel_values = none →
      ∃ msg, phi4Forward slots (mkExtend none merge) wte a = .error msg) ∧
    (∀ x m, a.pixel_values = some x → parseInputMode a.input_mode = .ok m →
      phi4Forward slots (mkExtend none merge) wte a =
        .ok ((routeMode m slots).1, (routeMode m slots).2,
          a.input_ids.map wte)) := by
  constructor
  · intro hpv
    unfold phi4Forward
    cases hp : parseInputMode a.input_mode with
    | error msg => exact ⟨msg, rfl⟩
    | ok m =>
      refine ⟨"TypeError NoneType object is not callable", ?_⟩
      unfold phi4Hidden mkExtend
      rw [hpv]
      rfl
  · intro x m hpv hp
    unfold phi4Forward
    rw [hp]
    unfold phi4Hidden
    rw [hpv]

/-- C10 witness: the same embd-layer-free model fails without
`pixel_values` and completes with them. -/
theorem C10_witness :
    (∃ msg, phi4Forward [] (mkExtend none (fun l _ _ _ => l))
        (fun _ : Fin 1 => (vzero : QVec 1))
        (⟨ModeArg.scalar 0, (none : Option Unit), [], (none : Option Unit), none⟩ : ForwardArgs 1 Unit Unit) =
      .error msg) ∧
    phi4Forward [] (mkExtend none (fun l _ _ _ => l))
        (fun _ : Fin 1 => (vzero : QVec 1))
        (⟨ModeArg.scalar 0, some (), [(0 : Fin 1)], (none : Option Unit), none⟩ : ForwardArgs 1 Unit Unit) =
      .ok ((routeMode InputMode.language []).1, (routeMode InputMode.language []).2,
        [(0 : Fin 1)].map (fun _ => (vzero : QVec 1))) :=
  ⟨(C10_missing_embd_layer [] (fun l _ _ _ => l)
      (fun _ : Fin 1 => (vzero : QVec 1))
      (⟨ModeArg.scalar 0, (none : Option Unit), [], (none : Option Unit), none⟩ : ForwardArgs 1 Unit Unit)).1 rfl,
   (C10_missing_embd_layer [] (fun l _ _ _ => l)
      (fun _ : Fin 1 => (vzero : QVec 1))
      (⟨ModeArg.scalar 0, some (), [(0 : Fin 1)], (none : Option Unit), none⟩ : ForwardArgs 1 Unit Unit)).2 () InputMode.language rfl rfl⟩

/-- C7: with tied word embeddings no separate projection exists
(`lm_head` is not created) and the head output is the final hidden state
multiplied by the transpose of the token-embedding table; without tied
embeddings the output is produced by the dedicated `lm_head`
projection. -/
theorem C7_tied_head {Vn Dn : ℕ} (tie : Bool) (emb W : QMat Vn Dn)
    (h : QVec Dn) :
    (tie = true → mkLmHead tie W = none ∧
      lmHeadApply tie emb (mkLmHead tie W) h =
        fun v => ∑ i, h i * matTrans emb i v) ∧
    (tie = false → mkLmHead tie W = some W ∧
      lmHeadApply tie emb (mkLmHead tie W) h = matApply W h) := by
  constructor
  · rintro rfl
    refine ⟨rfl, ?_⟩
    funext v
    simp [lmHeadApply, matApply, qdot, matTrans, mul_comm]
  · rintro rfl
    exact ⟨rfl, rfl⟩

/-- C7 witness: the tied branch at concrete one-dimensional weights. -/
theorem C7_witness :
    mkLmHead true ((fun _ _ => (3 : ℚ)) : QMat 1 1) = none ∧
    lmHeadApply true ((fun _ _ => (2 : ℚ)) : QMat 1 1)
        (mkLmHead true ((fun _ _ => (3 : ℚ)) : QMat 1 1)) (fun _ => (5 : ℚ)) =
      fun v => ∑ i, (fun _ : Fin 1 => (5 : ℚ)) i *
        matTrans ((fun _ _ => (2 : ℚ)) : QMat 1 1) i v :=
  (C7_tied_head true ((fun _ _ => (2 : ℚ)) : QMat 1 1)
    ((fun _ _ => (3 : ℚ)) : QMat 1 1) (fun _ => (5 : ℚ))).1 rfl

/-! ## C1: incremental decoding refines the full pass

Helper lemmas about the positional map, the rotary map, and masked
attention rows. -/

/-- `mapWithPos` preserves length. -/
theorem mapWithPos_length {α β : Type} (f : ℕ → α → β) (n : ℕ) (l : List α) :
    (mapWithPos f n l).length = l.length := by
  induction l generalizing n with
  | nil => rfl
  | cons a as ih => simp [mapWithPos, ih]

/-- `mapWithPos` over an append. -/
theorem mapWithPos_append {α β : Type} (f : ℕ → α → β) (n : ℕ) (l m : List α) :
    mapWithPos f n (l ++ m) =
      mapWithPos f n l ++ mapWithPos f (n + l.length) m := by
  induction l generalizing n with
  | nil => simp [mapWithPos]
  | cons a as ih =>
    simp only [List.cons_append, mapWithPos, ih, List.length_cons,
      List.append_eq]
    rw [show n + (as.length + 1) = n + 1 + as.length from by omega]

/-- `mapWithPos` on a singleton. -/
theorem mapWithPos_singleton {α β : Type} (f : ℕ → α → β) (n : ℕ) (a : α) :
    mapWithPos f n [a] = [f n a] := rfl

/-- Two positional maps agree when the functions agree below the final
position. -/
theorem mapWithPos_congr_lt {α β : Type} (f g : ℕ → α → β) (s : ℕ)
    (l : List α) (h : ∀ i a, i < s + l.length → f i a = g i a) :
    mapWithPos f s l = mapWithPos g s l := by
  induction l generalizing s with
  | nil => rfl
  | cons a as ih =>
    simp only [mapWithPos]
    have h1 := h s a (by simp only [List.length_cons]; omega)
    have h2 := ih (s + 1) (fun i b hi => h i b
      (by simp only [List.length_cons]; omega))
    rw [h1, h2]

/-- `ropeAll` preserves length. -/
theorem ropeAll_length (P : StackP) {n : ℕ} (off : ℕ)
    (ts : List (Fin n → QVec P.hd)) :
    (ropeAll P off ts).length = ts.length := by
  simp [ropeAll, mapWithPos_length]

/-- `ropeAll` over an appended token. -/
theorem ropeAll_snoc (P : StackP) {n : ℕ} (off : ℕ)
    (ts : List (Fin n → QVec P.hd)) (t : Fin n → QVec P.hd) :
    ropeAll P off (ts ++ [t]) =
      ropeAll P off ts ++ [fun a => P.rope (off + ts.length) (t a)] := by
  unfold ropeAll
  rw [mapWithPos_append]
  rfl

/-- `rowWeights` preserves length. -/
theorem rowWeights_length (w : ℚ → ℚ) (scale : ℚ) {hd : ℕ} (q : QVec hd)
    (ks : List (QVec hd)) (m : ℕ → MaskEntry) :
    (rowWeights w scale q ks m).length = ks.length := by
  induction ks generalizing m with
  | nil => rfl
  | cons k ks ih => simp [rowWeights, ih]

/-- `rowWeights` only reads the mask below the key-list length. -/
theorem rowWeights_congr (w : ℚ → ℚ) (scale : ℚ) {hd : ℕ} (q : QVec hd)
    (ks : List (QVec hd)) (m1 m2 : ℕ → MaskEntry)
    (h : ∀ j, j < ks.length → m1 j = m2 j) :
    rowWeights w scale q ks m1 = rowWeights w scale q ks m2 := by
  induction ks generalizing m1 m2 with
  | nil => rfl
  | cons k ks ih =>
    simp only [rowWeights]
    rw [h 0 (by simp), ih (fun j => m1 (j + 1)) (fun j => m2 (j + 1))
      (fun j hj => h (j + 1) (by simp only [List.length_cons]; omega))]

/-- `rowWeights` over an appended key. -/
theorem rowWeights_snoc (w : ℚ → ℚ) (scale : ℚ) {hd : ℕ} (q : QVec hd)
    (ks : List (QVec hd)) (k : QVec hd) (m : ℕ → MaskEntry) :
    rowWeights w scale q (ks ++ [k]) m =
      rowWeights w scale q ks m ++
        [weightOf w ((m ks.length).map (fun a => a + scale * qdot q k))] := by
  induction ks generalizing m with
  | nil => rfl
  | cons k0 ks ih =>
    simp only [List.cons_append, rowWeights, List.append_eq, List.length_cons]
    rw [ih]

/-- A weighted sum against an empty value list is zero. -/
theorem wsum_nil_right {d : ℕ} (cs : List ℚ) :
    wsum cs ([] : List (QVec d)) = vzero := by
  cases cs <;> rfl

/-- Appending a zero-weight pair leaves a weighted sum unchanged. -/
theorem wsum_snoc_zero {d : ℕ} (cs : List ℚ) (vs : List (QVec d))
    (v : QVec d) (h : cs.length = vs.length) :
    wsum (cs ++ [0]) (vs ++ [v]) = wsum cs vs := by
  induction cs generalizing vs with
  | nil =>
    cases vs with
    | nil => funext i; simp [wsum, vadd, vsmul, vzero]
    | cons v0 vs => simp at h
  | cons c cs ih =>
    cases vs with
    | nil => simp at h
    | cons v0 vs =>
      simp only [List.cons_append, wsum, List.append_eq]
      rw [ih vs (by simpa using h)]

/-- A masked (weight-zero) appended key/value pair does not change an
attention row. -/
theorem attendRow_snoc_masked (w : ℚ → ℚ) (scale : ℚ) {hd : ℕ}
    (q : QVec hd) (ks vs : List (QVec hd)) (k v : QVec hd)
    (m : ℕ → MaskEntry) (hm : m ks.length = none)
    (hlen : ks.length = vs.length) :
    attendRow w scale q (ks ++ [k]) (vs ++ [v]) m =
      attendRow w scale q ks vs m := by
  unfold attendRow
  rw [rowWeights_snoc, hm]
  have h0 : (Option.map (fun a => a + scale * qdot q k) none : MaskEntry) = none := rfl
  rw [h0]
  have h1 : weightOf w none = 0 := rfl
  rw [h1, wsum_snoc_zero _ _ _ (by rw [rowWeights_length]; exact hlen)]
  simp [List.sum_append]

/-- An attention row only reads the mask below the key-list length. -/
theorem attendRow_mask_congr (w : ℚ → ℚ) (scale : ℚ) {hd : ℕ}
    (q : QVec hd) (ks vs : List (QVec hd)) (m1 m2 : ℕ → MaskEntry)
    (h : ∀ j, j < ks.length → m1 j = m2 j) :
    attendRow w scale q ks vs m1 = attendRow w scale q ks vs m2 := by
  unfold attendRow
  rw [rowWeights_congr w scale q ks m1 m2 h]

/-- The causal-mask row of the newest query is the same whether the
offset is carried by the cache or by the row index. -/
theorem causalMask_row_eq (n : ℕ) :
    (fun j => causalMask 0 n j) = (fun j => causalMask n 0 j) := by
  funext j
  unfold causalMask
  rw [Nat.zero_add, Nat.add_zero]


theorem zipWith_snoc {α β γ : Type} (f : α → β → γ) (l1 : List α)
    (l2 : List β) (a : α) (b : β) (h : l1.length = l2.length) :
    List.zipWith f (l1 ++ [a]) (l2 ++ [b]) =
      List.zipWith f l1 l2 ++ [f a b] := by
  induction l1 generalizing l2 with
  | nil =>
    cases l2 with
    | nil => rfl
    | cons y ys => simp at h
  | cons x xs ih =>
    cases l2 with
    | nil => simp at h
    | cons y ys =>
      simp only [List.cons_append, List.zipWith_cons_cons]
      rw [ih ys (by simpa using h)]

theorem attnFull_length (P : StackP) (lp : LayerP P.D P.H P.HK P.hd P.Im)
    (mask : ℕ → ℕ → MaskEntry) (xs : List (QVec P.D)) :
    (attnFull P lp mask xs).length = xs.length := by
  simp [attnFull, mapWithPos_length, ropeAll_length, List.length_map]

theorem layerFull_length (P : StackP) (lp : LayerP P.D P.H P.HK P.hd P.Im)
    (xs : List (QVec P.D)) :
    (layerFull P lp xs).length = xs.length := by
  simp [layerFull, List.length_zipWith, attnFull_length, List.length_map]

theorem causalMask_none (off i j : ℕ) (h : off + i < j) :
    causalMask off i j = none := by
  unfold causalMask
  exact if_neg (by omega)

theorem attnFull_snoc (P : StackP) (lp : LayerP P.D P.H P.HK P.hd P.Im)
    (ys : List (QVec P.D)) (y : QVec P.D) :
    attnFull P lp (causalMask 0) (ys ++ [y]) =
      attnFull P lp (causalMask 0) ys ++ [(attnStep P lp (rawKV P lp ys) y).1] := by
  unfold attnFull attnStep rawKV
  simp only [List.map_append, List.map_cons, List.map_nil, ropeAll_snoc,
    ropeAll_length, List.length_map, Nat.zero_add, mapWithPos_append,
    mapWithPos_length, mapWithPos_singleton]
  congr 1
  · apply congrArg
    apply mapWithPos_congr_lt
    intro i q hi
    simp only [ropeAll_length, List.length_map, Nat.zero_add] at hi
    funext h
    simp only [colOf, List.map_append, List.map_cons, List.map_nil]
    apply attendRow_snoc_masked
    · apply causalMask_none
      simp only [List.length_map, ropeAll_length]
      omega
    · simp [ropeAll_length, List.length_map]
  · rw [causalMask_row_eq]

theorem layerStep_cache (P : StackP) (lp : LayerP P.D P.H P.HK P.hd P.Im)
    (xs : List (QVec P.D)) (x : QVec P.D) :
    (layerStep P lp (cacheOf P lp xs) x).2 = cacheOf P lp (xs ++ [x]) := by
  unfold layerStep attnStep cacheOf rawKV
  simp only [List.map_append, List.map_cons, List.map_nil, ropeAll_snoc,
    ropeAll_length, List.length_map, Nat.zero_add]

theorem layerFull_snoc (P : StackP) (lp : LayerP P.D P.H P.HK P.hd P.Im)
    (xs : List (QVec P.D)) (x : QVec P.D) :
    layerFull P lp (xs ++ [x]) =
      layerFull P lp xs ++ [(layerStep P lp (cacheOf P lp xs) x).1] := by
  unfold layerFull layerStep cacheOf
  simp only [List.map_append, List.map_cons, List.map_nil]
  rw [attnFull_snoc]
  rw [zipWith_snoc _ _ _ _ _ (by rw [attnFull_length, List.length_map])]
  rw [List.map_append]
  simp only [List.map_cons, List.map_nil]
  rw [zipWith_snoc _ _ _ _ _ (by rw [List.length_map])]

theorem stackFull_length (P : StackP) (ls : List (LayerP P.D P.H P.HK P.hd P.Im))
    (xs : List (QVec P.D)) : (stackFull P ls xs).length = xs.length := by
  induction ls generalizing xs with
  | nil => rfl
  | cons lp ls ih =>
    show (stackFull P ls (layerFull P lp xs)).length = xs.length
    rw [ih, layerFull_length]

theorem stackFull_snoc (P : StackP) (ls : List (LayerP P.D P.H P.HK P.hd P.Im))
    (ys : List (QVec P.D)) (x : QVec P.D) :
    stackFull P ls (ys ++ [x]) =
      stackFull P ls ys ++ [(stackStep P ls (cachesOf P ls ys) x).1] ∧
    (stackStep P ls (cachesOf P ls ys) x).2 = cachesOf P ls (ys ++ [x]) := by
  induction ls generalizing ys x with
  | nil => exact ⟨rfl, rfl⟩
  | cons lp ls ih =>
    have hstep : stackStep P (lp :: ls) (cachesOf P (lp :: ls) ys) x =
        ((stackStep P ls (cachesOf P ls (layerFull P lp ys))
            (layerStep P lp (cacheOf P lp ys) x).1).1,
         (layerStep P lp (cacheOf P lp ys) x).2 ::
           (stackStep P ls (cachesOf P ls (layerFull P lp ys))
             (layerStep P lp (cacheOf P lp ys) x).1).2) := rfl
    obtain ⟨ihA, ihB⟩ := ih (layerFull P lp ys) (layerStep P lp (cacheOf P lp ys) x).1
    constructor
    · have e1 : stackFull P (lp :: ls) (ys ++ [x]) =
          stackFull P ls (layerFull P lp (ys ++ [x])) := rfl
      have e2 : stackFull P (lp :: ls) ys =
          stackFull P ls (layerFull P lp ys) := rfl
      rw [e1, e2, layerFull_snoc, ihA, hstep]
    · rw [hstep]
      show (layerStep P lp (cacheOf P lp ys) x).2 ::
          (stackStep P ls (cachesOf P ls (layerFull P lp ys))
            (layerStep P lp (cacheOf P lp ys) x).1).2 =
        cacheOf P lp (ys ++ [x]) :: cachesOf P ls (layerFull P lp (ys ++ [x]))
      rw [layerStep_cache, ihB, layerFull_snoc]

theorem cachesOf_nil (P : StackP) (ls : List (LayerP P.D P.H P.HK P.hd P.Im)) :
    cachesOf P ls [] = ls.map (fun _ => KVCacheState.empty P) := by
  induction ls with
  | nil => rfl
  | cons lp ls ih =>
    show cacheOf P lp [] :: cachesOf P ls (layerFull P lp []) = _
    have h0 : layerFull P lp [] = [] := rfl
    rw [h0, ih]
    rfl

theorem stackFull_append_exists (P : StackP)
    (ls : List (LayerP P.D P.H P.HK P.hd P.Im)) (xs zs : List (QVec P.D)) :
    ∃ rest, stackFull P ls (xs ++ zs) = stackFull P ls xs ++ rest := by
  induction zs using List.reverseRecOn with
  | nil => exact ⟨[], by simp⟩
  | append_singleton zs z ih =>
    obtain ⟨rest, hrest⟩ := ih
    refine ⟨rest ++ [(stackStep P ls (cachesOf P ls (xs ++ zs)) z).1], ?_⟩
    rw [← List.append_assoc, (stackFull_snoc P ls (xs ++ zs) z).1, hrest,
      List.append_assoc]

theorem runIncrAux_eq (P : StackP) (ts : List (Fin P.Voc))
    (ys : List (QVec P.D)) :
    runIncrAux P ts (cachesOf P P.layers ys) =
      ((stackFull P P.layers (ys ++ ts.map (fun t => P.emb t))).map
        (fun h => lmHeadOut P h)).drop ys.length := by
  induction ts generalizing ys with
  | nil =>
    simp only [List.map_nil, List.append_nil, runIncrAux]
    rw [show ys.length = ((stackFull P P.layers ys).map
      (fun h => lmHeadOut P h)).length from by simp [stackFull_length]]
    rw [List.drop_length]
  | cons t ts ih =>
    have hsnoc := stackFull_snoc P P.layers ys (P.emb t)
    show lmHeadOut P (stackStep P P.layers (cachesOf P P.layers ys) (P.emb t)).1 ::
        runIncrAux P ts (stackStep P P.layers (cachesOf P P.layers ys) (P.emb t)).2 = _
    rw [hsnoc.2, ih (ys ++ [P.emb t])]
    simp only [List.map_cons]
    conv_rhs => rw [List.append_cons]
    obtain ⟨rest, hrest⟩ := stackFull_append_exists P P.layers (ys ++ [P.emb t])
      (List.map (fun t => P.emb t) ts)
    rw [hrest, hsnoc.1]
    simp only [List.map_append, List.map_cons, List.map_nil]
    have h1 : ((stackFull P P.layers ys).map (fun h => lmHeadOut P h) ++
        [lmHeadOut P (stackStep P P.layers (cachesOf P P.layers ys) (P.emb t)).1]).length =
        ys.length + 1 := by
      simp [stackFull_length]
    have h2 : ((stackFull P P.layers ys).map (fun h => lmHeadOut P h)).length =
        ys.length := by
      simp [stackFull_length]
    have hlen2 : (ys ++ [P.emb t]).length = ys.length + 1 := by simp
    rw [hlen2]
    rw [List.drop_left' h1]
    rw [List.append_assoc, List.drop_left' h2]
    rfl

/-- C1: for every stack (arbitrary weights, softmax kernel, rotary map,
norms and activation) and every token sequence, decoding the tokens
incrementally one at a time through persisted per-layer KV caches
produces, at each step, exactly the logits of the same position of a
single non-incremental full-sequence pass under the fixed causal mask
(equality is exact over the rational embedding, subsuming the numeric
tolerance of the claim). -/
theorem C1_kv_cache_roundtrip (P : StackP) (ids : List (Fin P.Voc)) :
    runIncr P ids = runFull P ids := by
  unfold runIncr runFull
  rw [← cachesOf_nil]
  have h := runIncrAux_eq P ids []
  simpa using h
